import Mathlib

/-!
Verification of the operator-precedence canonicalization engine of
MathCAT-in-Finnish (src/canonicalize.rs) against its natural-language
specification.

The MathML tree is shallowly embedded as `XNode`.  Rust `Element` values are
`XNode.elem` nodes; XML text nodes are `XNode.text`.  The sxd-document DOM is
mutable and threaded by reference; here every operation is a pure function
returning the new node/stack.  Rust `Result` becomes `Except`, with the error
value carrying the offending subtree (the Rust error message embeds the
pretty-printed offending subtree via mml_to_string).
-/

inductive XNode : Type where
  | elem (ename : String) (attrs : List (String × String)) (children : List XNode)
  | text (s : String)
deriving Repr

/-- name(&node): the element name; text nodes have none. -/
def XNode.name : XNode → String
  | .elem ename _ _ => ename
  | .text _ => ""

def XNode.children : XNode → List XNode
  | .elem _ _ cs => cs
  | .text _ => []

def XNode.attrList : XNode → List (String × String)
  | .elem _ a _ => a
  | .text _ => []

/-- attribute_value(key) on an element. -/
def XNode.attr (node : XNode) (key : String) : Option String :=
  (node.attrList.find? (fun p => p.1 == key)).map (fun p => p.2)

def XNode.isTextNode : XNode → Bool
  | .text _ => true
  | .elem _ _ _ => false

/-- as_text(leaf): the single text child of a leaf ("" when childless). -/
def xtext (node : XNode) : String :=
  match node.children with
  | [XNode.text s] => s
  | _ => ""

/-- append_child on an element (no-op on a text node, which has no children). -/
def XNode.appendChild (node : XNode) (child : XNode) : XNode :=
  match node with
  | .elem n a cs => .elem n a (cs ++ [child])
  | .text s => .text s

-- sizeOf facts used for termination of the tree recursions

theorem XNode.sizeOf_lt_of_mem_children {c node : XNode} (h : c ∈ node.children) :
    sizeOf c < sizeOf node := by
  cases node with
  | text s => simp [XNode.children] at h
  | elem n a cs =>
    simp only [XNode.children] at h
    have := List.sizeOf_lt_of_mem h
    simp only [XNode.elem.sizeOf_spec]
    omega

-- Constants from canonicalize.rs

def CHANGED_ATTR : String := "data-changed"
def ADDED_ATTR_VALUE : String := "added"
def CHEMICAL_BOND : String := "data-chemical-bond"
def DECIMAL_SEPARATOR : String := "."

/-- Modelled from the spec: the chemistry-tag attribute name `MAYBE_CHEMISTRY`
is defined in the crate's chemistry module, which is not among the provided
sources.  The spec (§3, glossary) only says a chemistry confidence marker is
attached to nodes; the attribute's exact string is immaterial to the theorems
below. -/
def MAYBE_CHEMISTRY : String := "data-chem-maybe"

-- Static element-kind sets from canonicalize.rs

def ELEMENTS_WITH_ONE_CHILD : List String :=
  ["math", "msqrt", "merror", "mpadded", "mphantom", "menclose", "mtd", "mscarry"]

def ELEMENTS_WITH_FIXED_NUMBER_OF_CHILDREN : List String :=
  ["mfrac", "mroot", "msub", "msup", "msubsup", "munder", "mover", "munderover",
   "mmultiscripts", "mlongdiv"]

def EMPTY_ELEMENTS : List String :=
  ["mspace", "none", "mprescripts", "mglyph", "malignmark", "maligngroup", "msline"]

def ALL_MATHML_ELEMENTS : List String :=
  ["mi", "mo", "mn", "mtext", "ms", "mspace", "mglyph",
   "mfrac", "mroot", "msub", "msup", "msubsup", "munder", "mover", "munderover", "mmultiscripts",
   "mstack", "mlongdiv", "msgroup", "msrow", "mscarries", "mscarry", "msline",
   "none", "mprescripts", "malignmark", "maligngroup",
   "math", "msqrt", "merror", "mpadded", "mphantom", "menclose", "mtd", "mstyle",
   "mrow", "mfenced", "mtable", "mtr", "mlabeledtr"]

/-- Modelled from the spec: `is_leaf` lives in the crate's `xpath_functions`
module, which is not among the provided sources.  The spec's data model (§3)
tags nodes by element kind with "leaf kinds (identifier, number, text,
operator, space)"; `assure_mathml` additionally routes the `EMPTY_ELEMENTS`
through its leaf branch, so those count as leaves too. -/
def is_leaf_name (ename : String) : Bool :=
  ename ∈ ["mi", "mo", "mn", "mtext", "ms", "mspace", "mglyph",
           "none", "mprescripts", "malignmark", "maligngroup", "msline"]

/-- get_presentation_element: pick the child annotation whose encoding is
MathML-Presentation and return its single child, else the first child.
(The original asserts the chosen annotation has exactly one child; outside
that region we return the annotation itself so the function stays total.) -/
def get_presentation_element (node : XNode) : XNode :=
  match node.children.find? (fun c => c.attr "encoding" == some "MathML-Presentation") with
  | some ann =>
    match ann.children with
    | [c] => c
    | _ => ann
  | none => node.children.headD node

theorem get_presentation_element_sizeOf_lt {node : XNode} (h : node.children ≠ []) :
    sizeOf (get_presentation_element node) < sizeOf node := by
  unfold get_presentation_element
  cases hf : node.children.find? (fun c => c.attr "encoding" == some "MathML-Presentation") with
  | none =>
    cases hc : node.children with
    | nil => exact absurd hc h
    | cons c rest =>
      simp only [List.headD]
      exact XNode.sizeOf_lt_of_mem_children (hc ▸ List.mem_cons_self c rest)
  | some ann =>
    have hann : ann ∈ node.children := List.mem_of_find?_eq_some hf
    have hann_lt : sizeOf ann < sizeOf node := XNode.sizeOf_lt_of_mem_children hann
    show sizeOf (match ann.children with | [c] => c | _ => ann) < sizeOf node
    match hac : ann.children with
    | [] => exact hann_lt
    | [c] =>
      have hc : c ∈ ann.children := by rw [hac]; exact List.mem_cons_self c []
      exact lt_trans (XNode.sizeOf_lt_of_mem_children hc) hann_lt
    | c :: c2 :: rest => exact hann_lt

/-- The fixed-arity condition of assure_mathml: munderover/msubsup need 3
children, mmultiscripts needs prescripts-presence consistent with child-count
parity, mlongdiv at least 3, every other fixed-arity container exactly 2. -/
def fixed_arity_ok (ename : String) (cs : List XNode) : Bool :=
  if ename ∈ ELEMENTS_WITH_FIXED_NUMBER_OF_CHILDREN then
    if ename = "munderover" ∨ ename = "msubsup" then cs.length == 3
    else if ename = "mmultiscripts" then
      !((cs.any (fun c => c.name == "mprescripts")) ^^ (cs.length % 2 == 0))
    else if ename = "mlongdiv" then decide (cs.length ≥ 3)
    else cs.length == 2
  else true

/-- The leaf-content condition of assure_mathml: one text child or childless.
(The source indexes children[0] under the length==1 short-circuit, so the
headD default is never reached.) -/
def leaf_content_ok (cs : List XNode) : Bool :=
  (cs.length == 1 && (cs.headD (XNode.text "")).isTextNode) || cs.length == 0

/-!
assure_mathml (canonicalize.rs:493-553).  Returns `Except.ok ()` or an error
carrying the offending subtree.  The original panics (rather than returns an
error) when a non-leaf element has a raw text child, because `as_element`
asserts element-hood; a bare text node therefore returns `ok` here, matching
the original only on trees whose text nodes sit under leaves — which is also
the only region the violation predicates below inspect.
-/

mutual

def assure_mathml : XNode → Except XNode Unit
  | XNode.text s => Except.ok ()
  | XNode.elem ename attrs cs =>
    let node := XNode.elem ename attrs cs
    let nChildren := cs.length
    if is_leaf_name ename then
      if ename ∈ EMPTY_ELEMENTS then
        if nChildren ≠ 0 then Except.error node
        else assure_mathml_rest node
      else if leaf_content_ok cs then
        Except.ok ()
      else Except.error node
    else assure_mathml_rest node
termination_by node => (sizeOf node, 1)
decreasing_by
  · exact Prod.Lex.right _ (by omega)
  · exact Prod.Lex.right _ (by omega)

/-- The code after the leaf block in assure_mathml: fixed-arity checks, the
semantics special case, the known-element-set check, and the recursion into
the children. -/
def assure_mathml_rest : XNode → Except XNode Unit
  | XNode.text s => Except.ok ()
  | XNode.elem ename attrs cs =>
    let node := XNode.elem ename attrs cs
    if ¬(fixed_arity_ok ename cs) then Except.error node
    else if ename = "semantics" then
      if hnil : cs.isEmpty then Except.ok ()
      else assure_mathml (get_presentation_element node)
    else if ename ∉ ALL_MATHML_ELEMENTS then Except.error node
    else assure_mathml_children cs
termination_by node => (sizeOf node, 0)
decreasing_by
  all_goals first
  | exact Prod.Lex.left _ _ (get_presentation_element_sizeOf_lt
      (by simp only [XNode.children]
          intro hc
          rw [hc] at hnil
          simp at hnil))
  | exact Prod.Lex.left _ _ (by simp only [XNode.elem.sizeOf_spec]; omega)

def assure_mathml_children (cs : List XNode) : Except XNode Unit :=
  match cs with
  | [] => Except.ok ()
  | c :: rest =>
    match assure_mathml c with
    | Except.error e => Except.error e
    | Except.ok _ => assure_mathml_children rest
termination_by (sizeOf cs, 0)
decreasing_by
  all_goals exact Prod.Lex.left _ _ (by simp only [List.cons.sizeOf_spec]; omega)

end

/-!
Per-node violation conditions and the two violation predicates used for C2:
`claim_violates` follows claim C2's own wording (a violation anywhere in the
tree), while `checked_violates` follows the amended wording (a violation in
the portion of the tree that assure_mathml actually validates: under a
semantics element only the selected presentation child is validated).
-/

/-- locally_bad: the conditions under which assure_mathml reports this very
node — a bad leaf (EMPTY_ELEMENTS leaf with children, other leaf whose content
is not a single text node or empty), a fixed-arity container with the wrong
child count (including the mmultiscripts prescripts parity rule), or a
non-leaf element name outside the known MathML element set (semantics being
handled separately and never reported). -/
def locally_bad (node : XNode) : Bool :=
  match node with
  | XNode.text _ => false
  | XNode.elem ename _attrs cs =>
    (is_leaf_name ename &&
      (if ename ∈ EMPTY_ELEMENTS then cs.length ≠ 0
       else !(leaf_content_ok cs))) ||
    !(fixed_arity_ok ename cs) ||
    (!is_leaf_name ename && ename ≠ "semantics" && ename ∉ ALL_MATHML_ELEMENTS)

mutual

/-- Violation anywhere in the tree, as claim C2 words it. -/
def claim_violates : XNode → Bool
  | XNode.text _ => false
  | XNode.elem ename attrs cs =>
    locally_bad (XNode.elem ename attrs cs) || claim_violates_children cs

def claim_violates_children : List XNode → Bool
  | [] => false
  | c :: rest => claim_violates c || claim_violates_children rest

end

mutual

/-- Violation within the validated portion of the tree: under a semantics
element only the selected presentation child is validated. -/
def checked_violates : XNode → Bool
  | XNode.text _ => false
  | XNode.elem ename attrs cs =>
    locally_bad (XNode.elem ename attrs cs) ||
    (if ename = "semantics" then
      if hnil : cs.isEmpty then false
      else checked_violates (get_presentation_element (XNode.elem ename attrs cs))
     else checked_violates_children cs)
termination_by node => (sizeOf node, 1)
decreasing_by
  all_goals first
  | exact Prod.Lex.left _ _ (get_presentation_element_sizeOf_lt
      (by simp only [XNode.children]
          intro hc
          rw [hc] at hnil
          simp at hnil))
  | exact Prod.Lex.left _ _ (by simp only [XNode.elem.sizeOf_spec]; omega)

def checked_violates_children : List XNode → Bool
  | [] => false
  | c :: rest => checked_violates c || checked_violates_children rest
termination_by cs => (sizeOf cs, 0)
decreasing_by
  all_goals exact Prod.Lex.left _ _ (by simp only [List.cons.sizeOf_spec]; omega)

end

/-- Subtree relation (reflexive, through children). -/
inductive Subtree : XNode → XNode → Prop where
  | refl (t : XNode) : Subtree t t
  | child {s c t : XNode} (hc : c ∈ t.children) (h : Subtree s c) : Subtree s t

/-- canonicalize's opening repair step (canonicalize.rs:446-455): a root that
is not a math element is wrapped in a fresh math element marked
data-changed=added. -/
def wrap_in_math (mathml : XNode) : XNode :=
  if mathml.name ≠ "math" then
    XNode.elem "math" [(CHANGED_ATTR, ADDED_ATTR_VALUE)] [mathml]
  else mathml

/-- The error behaviour of canonicalize (canonicalize.rs:443-470): the only
bail sites of the whole pipeline are in assure_mathml, which runs on the
(possibly wrapped) input; the later passes return Ok values throughout. -/
def canonicalize_validate (mathml : XNode) : Except XNode Unit :=
  assure_mathml (wrap_in_math mathml)

/-- create_empty_element (canonicalize.rs:563-568). -/
def create_empty_element : XNode :=
  XNode.elem "mtext" [("data-added", "missing-content")] [XNode.text "\u00A0"]

/-- assure_math_not_empty (canonicalize.rs:472-479). -/
def assure_math_not_empty (mathml : XNode) : XNode :=
  if mathml.children.isEmpty then mathml.appendChild create_empty_element
  else mathml

-- Facts about the concrete element-kind sets, used to align the branch
-- structure of assure_mathml with the violation predicates.

theorem leaf_name_not_fixed {en : String} (h : is_leaf_name en = true) :
    en ∉ ELEMENTS_WITH_FIXED_NUMBER_OF_CHILDREN := by
  have h' : en ∈ ["mi", "mo", "mn", "mtext", "ms", "mspace", "mglyph",
           "none", "mprescripts", "malignmark", "maligngroup", "msline"] :=
    of_decide_eq_true h
  fin_cases h' <;> decide

theorem leaf_name_ne_semantics {en : String} (h : is_leaf_name en = true) :
    en ≠ "semantics" := by
  have h' : en ∈ ["mi", "mo", "mn", "mtext", "ms", "mspace", "mglyph",
           "none", "mprescripts", "malignmark", "maligngroup", "msline"] :=
    of_decide_eq_true h
  fin_cases h' <;> decide

theorem empty_mem_all {en : String} (h : en ∈ EMPTY_ELEMENTS) :
    en ∈ ALL_MATHML_ELEMENTS := by
  fin_cases h <;> decide

theorem empty_is_leaf {en : String} (h : en ∈ EMPTY_ELEMENTS) :
    is_leaf_name en = true := by
  fin_cases h <;> decide

theorem leaf_content_ok_cases {cs : List XNode} (h : leaf_content_ok cs = true) :
    cs = [] ∨ ∃ s, cs = [XNode.text s] := by
  simp only [leaf_content_ok, Bool.or_eq_true, Bool.and_eq_true, beq_iff_eq] at h
  rcases h with ⟨hone, htext⟩ | h0
  · match cs, hone with
    | [c], _ =>
      cases c with
      | text s => exact Or.inr ⟨s, rfl⟩
      | elem e a k => simp [List.headD, XNode.isTextNode] at htext
  · exact Or.inl (List.length_eq_zero.mp h0)

theorem leaf_fixed_arity_ok {ename : String} (h : is_leaf_name ename = true)
    (cs : List XNode) : fixed_arity_ok ename cs = true := by
  simp [fixed_arity_ok, leaf_name_not_fixed h]

theorem assure_children_ok_iff (cs : List XNode)
    (ih : ∀ c ∈ cs, assure_mathml c = Except.ok () ↔ checked_violates c = false) :
    assure_mathml_children cs = Except.ok () ↔ checked_violates_children cs = false := by
  induction cs with
  | nil => simp [assure_mathml_children, checked_violates_children]
  | cons c rest ihr =>
    have hc := ih c (List.mem_cons_self c rest)
    have hr := ihr (fun x hx => ih x (List.mem_cons_of_mem c hx))
    simp only [assure_mathml_children, checked_violates_children]
    cases hac : assure_mathml c with
    | error e =>
      have hcv : checked_violates c = true := by
        cases hcv2 : checked_violates c with
        | true => rfl
        | false => rw [← hc] at hcv2; rw [hac] at hcv2; exact absurd hcv2 (by simp)
      simp [hcv]
    | ok u =>
      cases u
      have hcv : checked_violates c = false := hc.mp hac
      simp [hcv, hr]

theorem assure_ok_iff_checked_aux : ∀ (n : Nat) (t : XNode), sizeOf t ≤ n →
    (assure_mathml t = Except.ok () ↔ checked_violates t = false) := by
  intro n
  induction n using Nat.strong_induction_on with
  | _ n ih =>
    intro t hle
    cases t with
    | text s => simp [assure_mathml, checked_violates]
    | elem ename attrs cs =>
      have ihc : ∀ c ∈ cs, assure_mathml c = Except.ok () ↔ checked_violates c = false := by
        intro c hcmem
        have hlt : sizeOf c < sizeOf (XNode.elem ename attrs cs) :=
          XNode.sizeOf_lt_of_mem_children (by simpa [XNode.children] using hcmem)
        exact ih (sizeOf c) (by omega) c le_rfl
      simp only [assure_mathml, checked_violates]
      by_cases hleaf : is_leaf_name ename = true
      · have hfixleaf := leaf_fixed_arity_ok hleaf cs
        by_cases hempty : ename ∈ EMPTY_ELEMENTS
        · by_cases hlen : cs.length ≠ 0
          · simp [hleaf, hempty, hlen, locally_bad]
          · have hnil : cs = [] := List.length_eq_zero.mp (by omega)
            subst hnil
            simp [hleaf, hempty, locally_bad, assure_mathml_rest, hfixleaf,
                  leaf_name_ne_semantics hleaf,
                  empty_mem_all hempty, assure_mathml_children,
                  checked_violates_children]
        · cases hgood : leaf_content_ok cs with
          | true =>
            have hkids : checked_violates_children cs = false := by
              rcases leaf_content_ok_cases hgood with hnil | ⟨s, hcs⟩
              · subst hnil; simp [checked_violates_children]
              · subst hcs; simp [checked_violates_children, checked_violates]
            simp [hleaf, hempty, hgood, locally_bad, hfixleaf,
                  leaf_name_ne_semantics hleaf, hkids]
          | false =>
            simp [hleaf, hempty, hgood, locally_bad]
      · -- non-leaf
        simp only [hleaf, Bool.false_eq_true, if_false, assure_mathml_rest]
        cases hfix : fixed_arity_ok ename cs with
        | false => simp [hfix, locally_bad, hleaf]
        | true =>
          by_cases hsem : ename = "semantics"
          · subst hsem
            cases cs with
            | nil => simp [hfix, locally_bad, hleaf, checked_violates_children]
            | cons c rest =>
              have hlt : sizeOf (get_presentation_element (XNode.elem "semantics" attrs (c :: rest))) < sizeOf (XNode.elem "semantics" attrs (c :: rest)) :=
                get_presentation_element_sizeOf_lt (by simp [XNode.children])
              have hgpe := ih (sizeOf (get_presentation_element (XNode.elem "semantics" attrs (c :: rest)))) (by omega) _ le_rfl
              simp [hfix, locally_bad, hleaf, hgpe]
          · by_cases hall : ename ∈ ALL_MATHML_ELEMENTS
            · have hck := assure_children_ok_iff cs ihc
              simp [hfix, hsem, hall, locally_bad, hleaf, hck]
            · simp [hfix, hsem, hall, locally_bad, hleaf]

theorem subtree_trans {a b c : XNode} (h1 : Subtree a b) (h2 : Subtree b c) :
    Subtree a c := by
  induction h2 with
  | refl => exact h1
  | child hc _ ih => exact Subtree.child hc ih

theorem gpe_subtree {node : XNode} (h : node.children ≠ []) :
    Subtree (get_presentation_element node) node := by
  unfold get_presentation_element
  cases hf : node.children.find? (fun c => c.attr "encoding" == some "MathML-Presentation") with
  | none =>
    cases hc : node.children with
    | nil => exact absurd hc h
    | cons c rest =>
      simp only [List.headD]
      exact Subtree.child (hc ▸ List.mem_cons_self c rest) (Subtree.refl c)
  | some ann =>
    have hann : ann ∈ node.children := List.mem_of_find?_eq_some hf
    show Subtree (match ann.children with | [c] => c | _ => ann) node
    match hac : ann.children with
    | [] => exact Subtree.child hann (Subtree.refl ann)
    | [c] =>
      have hcmem : c ∈ ann.children := by rw [hac]; exact List.mem_cons_self c []
      exact Subtree.child hann (Subtree.child hcmem (Subtree.refl c))
    | c :: c2 :: rest => exact Subtree.child hann (Subtree.refl ann)

theorem assure_children_error_subtree (cs : List XNode)
    (ih : ∀ c ∈ cs, ∀ e, assure_mathml c = Except.error e →
            locally_bad e = true ∧ Subtree e c) :
    ∀ e, assure_mathml_children cs = Except.error e →
      locally_bad e = true ∧ ∃ c ∈ cs, Subtree e c := by
  induction cs with
  | nil => intro e he; simp [assure_mathml_children] at he
  | cons c rest ihr =>
    intro e he
    simp only [assure_mathml_children] at he
    cases hac : assure_mathml c with
    | error e2 =>
      rw [hac] at he
      have heq : e2 = e := by injection he
      subst heq
      obtain ⟨hlb, hsub⟩ := ih c (List.mem_cons_self c rest) e2 hac
      exact ⟨hlb, c, List.mem_cons_self c rest, hsub⟩
    | ok u =>
      cases u
      rw [hac] at he
      obtain ⟨hlb, c2, hc2, hsub⟩ :=
        ihr (fun x hx => ih x (List.mem_cons_of_mem c hx)) e he
      exact ⟨hlb, c2, List.mem_cons_of_mem c hc2, hsub⟩

theorem assure_error_subtree_aux : ∀ (n : Nat) (t : XNode), sizeOf t ≤ n →
    ∀ e, assure_mathml t = Except.error e → locally_bad e = true ∧ Subtree e t := by
  intro n
  induction n using Nat.strong_induction_on with
  | _ n ih =>
    intro t hle e he
    cases t with
    | text s => simp [assure_mathml] at he
    | elem ename attrs cs =>
      have ihc : ∀ c ∈ cs, ∀ e2, assure_mathml c = Except.error e2 →
          locally_bad e2 = true ∧ Subtree e2 c := by
        intro c hcmem
        have hlt : sizeOf c < sizeOf (XNode.elem ename attrs cs) :=
          XNode.sizeOf_lt_of_mem_children (by simpa [XNode.children] using hcmem)
        exact ih (sizeOf c) (by omega) c le_rfl
      simp only [assure_mathml] at he
      by_cases hleaf : is_leaf_name ename = true
      · have hfixleaf := leaf_fixed_arity_ok hleaf cs
        by_cases hempty : ename ∈ EMPTY_ELEMENTS
        · by_cases hlen : cs.length ≠ 0
          · rw [if_pos hleaf, if_pos hempty, if_pos hlen] at he
            cases he
            refine ⟨?_, Subtree.refl _⟩
            simp [locally_bad, hleaf, hempty, hlen]
          · have hnil : cs = [] := List.length_eq_zero.mp (by omega)
            subst hnil
            rw [if_pos hleaf, if_pos hempty, if_neg hlen] at he
            simp [assure_mathml_rest, hfixleaf, leaf_name_ne_semantics hleaf,
                  empty_mem_all hempty, assure_mathml_children] at he
        · cases hgood : leaf_content_ok cs with
          | true => rw [if_pos hleaf, if_neg hempty, if_pos (by rw [hgood] : leaf_content_ok cs = true)] at he; cases he
          | false =>
            rw [if_pos hleaf, if_neg hempty,
                if_neg (by rw [hgood]; simp : ¬ leaf_content_ok cs = true)] at he
            cases he
            refine ⟨?_, Subtree.refl _⟩
            simp [locally_bad, hleaf, hempty, hgood]
      · rw [if_neg hleaf] at he
        simp only [assure_mathml_rest] at he
        cases hfix : fixed_arity_ok ename cs with
        | false =>
          rw [if_pos (by rw [hfix]; simp : ¬ fixed_arity_ok ename cs = true)] at he
          cases he
          refine ⟨?_, Subtree.refl _⟩
          simp [locally_bad, hfix]
        | true =>
          rw [if_neg (by rw [hfix]; simp : ¬ ¬ fixed_arity_ok ename cs = true)] at he
          by_cases hsem : ename = "semantics"
          · rw [if_pos hsem] at he
            cases hcs : cs with
            | nil => subst hcs; simp at he
            | cons c rest =>
              subst hcs
              rw [dif_neg (by simp : ¬ ((c :: rest).isEmpty = true))] at he
              have hchild : (XNode.elem ename attrs (c :: rest)).children ≠ [] := by
                simp [XNode.children]
              have hlt := get_presentation_element_sizeOf_lt hchild
              obtain ⟨hlb, hsub⟩ := ih (sizeOf (get_presentation_element (XNode.elem ename attrs (c :: rest)))) (by omega) _ le_rfl e he
              exact ⟨hlb, subtree_trans hsub (gpe_subtree hchild)⟩
          · rw [if_neg hsem] at he
            by_cases hall : ename ∈ ALL_MATHML_ELEMENTS
            · rw [if_neg (by simp [hall] : ¬ ename ∉ ALL_MATHML_ELEMENTS)] at he
              obtain ⟨hlb, c, hc, hsub⟩ := assure_children_error_subtree cs ihc e he
              exact ⟨hlb, subtree_trans hsub (Subtree.child (by simpa [XNode.children] using hc) (Subtree.refl c))⟩
            · rw [if_pos hall] at he
              cases he
              refine ⟨?_, Subtree.refl _⟩
              simp [locally_bad, hleaf, hsem, hall]

theorem assure_mathml_ok_iff (t : XNode) :
    assure_mathml t = Except.ok () ↔ checked_violates t = false :=
  assure_ok_iff_checked_aux (sizeOf t) t le_rfl

theorem assure_mathml_error_subtree {t e : XNode}
    (he : assure_mathml t = Except.error e) :
    locally_bad e = true ∧ Subtree e t :=
  assure_error_subtree_aux (sizeOf t) t le_rfl e he

theorem except_unit_cases (x : Except XNode Unit) :
    x = Except.ok () ∨ ∃ e, x = Except.error e := by
  cases x with
  | ok u => cases u; exact Or.inl rfl
  | error e => exact Or.inr ⟨e, rfl⟩

theorem checked_violates_wrap (t : XNode) :
    checked_violates (wrap_in_math t) = checked_violates t := by
  unfold wrap_in_math
  by_cases h : t.name ≠ "math"
  · rw [if_pos h]
    simp [checked_violates, locally_bad, checked_violates_children,
          is_leaf_name, fixed_arity_ok, ELEMENTS_WITH_FIXED_NUMBER_OF_CHILDREN,
          ALL_MATHML_ELEMENTS]
  · rw [if_neg h]

/-- C2 (amended): canonicalize returns an aborting Err exactly when the
validated portion of the input violates a structural precondition — for a
semantics element only the selected presentation annotation child is
validated, and everywhere else an element name outside the known MathML
element set, a fixed-arity container with the wrong child count, or an
invalid leaf is an error — and the error value references the offending
subtree (a locally-violating node of the wrapped input); no other condition
produces an error. -/
theorem c2_canonicalize_error_iff (t : XNode) :
    ((∃ e, canonicalize_validate t = Except.error e) ↔ checked_violates t = true) ∧
    (∀ e, canonicalize_validate t = Except.error e →
       locally_bad e = true ∧ Subtree e (wrap_in_math t)) := by
  constructor
  · unfold canonicalize_validate
    constructor
    · rintro ⟨e, he⟩
      cases hcv : checked_violates t with
      | true => rfl
      | false =>
        have hok : assure_mathml (wrap_in_math t) = Except.ok () := by
          rw [assure_mathml_ok_iff, checked_violates_wrap, hcv]
        rw [hok] at he
        exact absurd he (by simp)
    · intro hcv
      rcases except_unit_cases (assure_mathml (wrap_in_math t)) with hok | ⟨e, he⟩
      · rw [assure_mathml_ok_iff, checked_violates_wrap, hcv] at hok
        exact absurd hok (by simp)
      · exact ⟨e, he⟩
  · intro e he
    exact assure_mathml_error_subtree he

/-- The tree falsifying claim C2 as stated: a semantics element whose second
child is an annotation element, whose name is outside the known MathML
element set; assure_mathml validates only the selected presentation child, so
canonicalize succeeds even though the tree violates the claim's structural
predicate. -/
def c2_cex : XNode :=
  XNode.elem "math" [] [XNode.elem "semantics" []
    [XNode.elem "mi" [] [XNode.text "x"],
     XNode.elem "annotation" [("encoding", "application/x-tex")] [XNode.text "x"]]]

/-- C2 counterexample: the input contains an element name outside the known
MathML element set (so claim C2 as stated demands an aborting Err), yet
canonicalize returns Ok because the offender sits in an unvalidated
annotation position under semantics. -/
theorem c2_counterexample :
    claim_violates c2_cex = true ∧
    canonicalize_validate c2_cex = Except.ok () := by
  constructor
  · simp [c2_cex, claim_violates, claim_violates_children, locally_bad,
          is_leaf_name, EMPTY_ELEMENTS, ALL_MATHML_ELEMENTS, fixed_arity_ok,
          ELEMENTS_WITH_FIXED_NUMBER_OF_CHILDREN, leaf_content_ok,
          XNode.children, XNode.name, XNode.isTextNode]
  · simp [c2_cex, canonicalize_validate, wrap_in_math, XNode.name,
          assure_mathml, assure_mathml_rest, assure_mathml_children,
          is_leaf_name, EMPTY_ELEMENTS, ALL_MATHML_ELEMENTS, fixed_arity_ok,
          ELEMENTS_WITH_FIXED_NUMBER_OF_CHILDREN, leaf_content_ok,
          get_presentation_element, XNode.children, XNode.attr, XNode.attrList,
          XNode.name, XNode.isTextNode]

def c2_witness_input : XNode := XNode.elem "math" [] [XNode.elem "mbogus" [] []]

theorem c2_canonicalize_error_iff_witness :
    canonicalize_validate c2_witness_input = Except.error (XNode.elem "mbogus" [] []) ∧
    locally_bad (XNode.elem "mbogus" [] []) = true ∧
    Subtree (XNode.elem "mbogus" [] []) (wrap_in_math c2_witness_input) := by
  have herr : canonicalize_validate c2_witness_input = Except.error (XNode.elem "mbogus" [] []) := by
    simp [c2_witness_input, canonicalize_validate, wrap_in_math, XNode.name,
          assure_mathml, assure_mathml_rest, assure_mathml_children,
          is_leaf_name, EMPTY_ELEMENTS, ALL_MATHML_ELEMENTS, fixed_arity_ok,
          ELEMENTS_WITH_FIXED_NUMBER_OF_CHILDREN, leaf_content_ok,
          XNode.children, XNode.isTextNode]
  exact ⟨herr, (c2_canonicalize_error_iff c2_witness_input).2 _ herr⟩

/-- C10: a root element that is not math does not make the call fail on that
account — it is wrapped in a newly created math element marked
data-changed=added, with the original tree as its only child, and
canonicalization proceeds on the wrapped tree (erroring only if the input
itself violates a validated structural precondition). -/
theorem c10_wrap_non_math (t : XNode) (h : t.name ≠ "math") :
    wrap_in_math t = XNode.elem "math" [(CHANGED_ATTR, ADDED_ATTR_VALUE)] [t] ∧
    (checked_violates t = false → canonicalize_validate t = Except.ok ()) := by
  constructor
  · simp [wrap_in_math, h]
  · intro hok
    unfold canonicalize_validate
    rw [assure_mathml_ok_iff, checked_violates_wrap]
    exact hok

theorem c10_wrap_non_math_witness :
    (XNode.elem "mrow" [] []).name ≠ "math" ∧
    wrap_in_math (XNode.elem "mrow" [] []) =
      XNode.elem "math" [(CHANGED_ATTR, ADDED_ATTR_VALUE)] [XNode.elem "mrow" [] []] ∧
    canonicalize_validate (XNode.elem "mrow" [] []) = Except.ok () := by
  have h : (XNode.elem "mrow" [] []).name ≠ "math" := by simp [XNode.name]
  have hck : checked_violates (XNode.elem "mrow" [] []) = false := by
    simp [checked_violates, locally_bad, checked_violates_children,
          is_leaf_name, EMPTY_ELEMENTS, ALL_MATHML_ELEMENTS, fixed_arity_ok,
          ELEMENTS_WITH_FIXED_NUMBER_OF_CHILDREN, leaf_content_ok, XNode.name]
  exact ⟨h, (c10_wrap_non_math _ h).1, (c10_wrap_non_math _ h).2 hck⟩

/-- C9: when the math element's content is empty, assure_math_not_empty puts
exactly one placeholder text node in its place — an mtext holding a
non-breaking space U+00A0 — and its result never has zero children. -/
theorem c9_empty_math_placeholder (m : XNode) (h : m.name = "math") :
    (assure_math_not_empty m).children ≠ [] ∧
    (m.children = [] →
      (assure_math_not_empty m).children = [create_empty_element]) ∧
    create_empty_element =
      XNode.elem "mtext" [("data-added", "missing-content")] [XNode.text "\u00A0"] := by
  cases m with
  | text s => simp [XNode.name] at h
  | elem ename attrs cs =>
    refine ⟨?_, ?_, rfl⟩
    · cases cs with
      | nil => simp [assure_math_not_empty, XNode.children, XNode.appendChild]
      | cons c rest => simp [assure_math_not_empty, XNode.children, XNode.appendChild]
    · intro hnil
      simp only [XNode.children] at hnil
      subst hnil
      simp [assure_math_not_empty, XNode.children, XNode.appendChild]

theorem c9_empty_math_placeholder_witness :
    (XNode.elem "math" [] []).name = "math" ∧
    (assure_math_not_empty (XNode.elem "math" [] [])).children = [create_empty_element] := by
  have h : (XNode.elem "math" [] []).name = "math" := rfl
  exact ⟨h, ((c9_empty_math_placeholder (XNode.elem "math" [] []) h).2.1 rfl)⟩

/-!
The operator dictionary data model (canonicalize.rs:96-219).  OperatorTypes
is a bitflags u32; an OperatorInfo in the source carries a `next` pointer
chaining up to three alternates for the same token, which we represent as a
`List OperatorInfo` per dictionary entry.  The source compares specific
static OperatorInfo values by address (`ptr_eq`); every distinct static below
gets a distinct `uid`, and `ptr_eq` compares uids.
-/

def T_PRE : Nat := 1
def T_IN : Nat := 2
def T_POST : Nat := 4
def T_FENCE : Nat := 8
def T_LEFT_FENCE : Nat := 9
def T_RIGHT_FENCE : Nat := 12

structure OperatorInfo where
  uid : Nat
  opType : Nat
  priority : Nat
deriving Repr, DecidableEq

def ptr_eq (a b : OperatorInfo) : Bool := a.uid == b.uid

def OperatorInfo.isPre (op : OperatorInfo) : Bool := (op.opType &&& T_PRE) != 0
def OperatorInfo.isIn (op : OperatorInfo) : Bool := (op.opType &&& T_IN) != 0
def OperatorInfo.isPost (op : OperatorInfo) : Bool := (op.opType &&& T_POST) != 0
def OperatorInfo.isLeftFence (op : OperatorInfo) : Bool :=
  (op.opType &&& T_LEFT_FENCE) == T_LEFT_FENCE
def OperatorInfo.isRightFence (op : OperatorInfo) : Bool :=
  (op.opType &&& T_RIGHT_FENCE) == T_RIGHT_FENCE
def OperatorInfo.isFenceOp (op : OperatorInfo) : Bool :=
  (op.opType &&& (T_LEFT_FENCE ||| T_RIGHT_FENCE)) != 0
def OperatorInfo.isOpType (op : OperatorInfo) (t : Nat) : Bool :=
  (op.opType &&& t) != 0

/-!
Statics (canonicalize.rs:41-94).  The operator dictionary itself is
include!("operator-info.in"), which is not among the provided sources, so the
priorities of dictionary entries are modelled from the spec (lower = looser
binding; the source asserts only relative facts, e.g. the trig-times priority
851 exceeds the function-application priority).  Priorities of the statics
defined directly in canonicalize.rs (the fencepost, the high-priority
variants, the 260 defaults, the 999 illegal marker) are taken from the source.
-/

def LEFT_FENCEPOST : OperatorInfo := OperatorInfo.mk 0 T_LEFT_FENCE 0

def INVISIBLE_FUNCTION_APPLICATION : OperatorInfo := OperatorInfo.mk 1 T_IN 850
def IMPLIED_TIMES : OperatorInfo := OperatorInfo.mk 2 T_IN 390
def IMPLIED_INVISIBLE_COMMA : OperatorInfo := OperatorInfo.mk 3 T_IN 40
def IMPLIED_INVISIBLE_PLUS : OperatorInfo := OperatorInfo.mk 4 T_IN 275

def PLUS : OperatorInfo := OperatorInfo.mk 5 T_IN 275
/-- The prefix alternate chained off the dictionary "+" entry. -/
def PLUS_PRE_VERSION : OperatorInfo := OperatorInfo.mk 6 T_PRE 275
def MINUS : OperatorInfo := OperatorInfo.mk 7 T_IN 275
/-- PREFIX_MINUS in the source: MINUS.next. -/
def MINUS_PRE_VERSION : OperatorInfo := OperatorInfo.mk 8 T_PRE 275
def TIMES_SIGN : OperatorInfo := OperatorInfo.mk 9 T_IN 390
def EQUALS_OP : OperatorInfo := OperatorInfo.mk 10 T_IN 65

def OPEN_PAREN : OperatorInfo := OperatorInfo.mk 11 T_LEFT_FENCE 20
def CLOSE_PAREN : OperatorInfo := OperatorInfo.mk 12 T_RIGHT_FENCE 20
def VERT_BAR_LEFT : OperatorInfo := OperatorInfo.mk 13 T_LEFT_FENCE 20
def VERT_BAR_RIGHT : OperatorInfo := OperatorInfo.mk 14 T_RIGHT_FENCE 20
def VERT_BAR_IN : OperatorInfo := OperatorInfo.mk 15 T_IN 270

def IMPLIED_TIMES_HIGH_PRIORITY : OperatorInfo := OperatorInfo.mk 16 T_IN 851
def IMPLIED_SEPARATOR_HIGH_PRIORITY : OperatorInfo := OperatorInfo.mk 17 T_IN 901
def IMPLIED_CHEMICAL_BOND : OperatorInfo := OperatorInfo.mk 18 T_IN 905
def IMPLIED_PLUS_SLASH_HIGH_PRIORITY : OperatorInfo := OperatorInfo.mk 19 T_IN 881

def DEFAULT_OPERATOR_INFO_PRE : OperatorInfo := OperatorInfo.mk 20 T_PRE 260
def DEFAULT_OPERATOR_INFO_IN : OperatorInfo := OperatorInfo.mk 21 T_IN 260
def DEFAULT_OPERATOR_INFO_POST : OperatorInfo := OperatorInfo.mk 22 T_POST 260
def ILLEGAL_OPERATOR_INFO : OperatorInfo := OperatorInfo.mk 23 T_IN 999

/-- Modelled from the spec: the operator dictionary (operator-info.in, built
from MathML's operator dictionary, not among the provided sources) restricted
to the tokens the provided code references.  Each entry is the token's chain
of role alternates (head = primary entry, tail = the `next` chain). -/
def OPERATORS (s : String) : Option (List OperatorInfo) :=
  if s = "\u2061" then some [INVISIBLE_FUNCTION_APPLICATION]
  else if s = "\u2062" then some [IMPLIED_TIMES]
  else if s = "\u2063" then some [IMPLIED_INVISIBLE_COMMA]
  else if s = "\u2064" then some [IMPLIED_INVISIBLE_PLUS]
  else if s = "+" then some [PLUS, PLUS_PRE_VERSION]
  else if s = "-" then some [MINUS, MINUS_PRE_VERSION]
  else if s = "×" then some [TIMES_SIGN]
  else if s = "=" then some [EQUALS_OP]
  else if s = "(" then some [OPEN_PAREN]
  else if s = ")" then some [CLOSE_PAREN]
  else if s = "|" then some [VERT_BAR_LEFT, VERT_BAR_RIGHT, VERT_BAR_IN]
  else if s = "∥" then some [VERT_BAR_LEFT, VERT_BAR_RIGHT, VERT_BAR_IN]
  else if s = "‖" then some [VERT_BAR_LEFT, VERT_BAR_RIGHT, VERT_BAR_IN]
  else none

def AMBIGUOUS_OPERATORS : List String := ["|", "∥", "‖"]

inductive FunctionNameCertainty where
  | True
  | Maybe
  | False
deriving Repr, DecidableEq

/-- OperatorVersions (canonicalize.rs:143-174): the prefix/infix/postfix
readings reachable along a dictionary entry's chain. -/
structure OperatorVersions where
  pre : Option OperatorInfo
  inf : Option OperatorInfo
  post : Option OperatorInfo
deriving Repr, DecidableEq

def OperatorVersions.ofChain (chain : List OperatorInfo) : OperatorVersions :=
  chain.foldl (fun v op =>
    if op.isPre then OperatorVersions.mk (some op) v.inf v.post
    else if op.isIn then OperatorVersions.mk v.pre (some op) v.post
    else if op.isPost then OperatorVersions.mk v.pre v.inf (some op)
    else v)   -- the source panics here; dictionary entries always have a role
    (OperatorVersions.mk none none none)

def is_adorned_name (ename : String) : Bool :=
  ename == "msub" || ename == "msup" || ename == "msubsup" ||
  ename == "munder" || ename == "mover" || ename == "munderover" ||
  ename == "mmultiscripts"

/-- get_possible_embellished_node (canonicalize.rs:3300-3306). -/
def get_possible_embellished_node : XNode → XNode
  | XNode.elem ename attrs (c :: rest) =>
    if is_adorned_name ename then get_possible_embellished_node c
    else XNode.elem ename attrs (c :: rest)
  | node => node

/-- Modelled from the spec: the classification context.  The fields stand for
routines of this repository that are outside the provided sources —
is_function_name's configured name sets and chemistry scoring (spec §4.4),
IsNode::is_simple and IsBracketed from xpath_functions, the
TrigFunctionNames set from the definitions module, and the recursive
per-child canonicalization used inside is_mixed_fraction.  Theorems quantify
over every such context. -/
structure Ctx where
  isFunctionName : XNode → Option (List XNode) → FunctionNameCertainty
  isSimple : XNode → Bool
  isBracketedParen : XNode → Bool
  isBracketedBracket : XNode → Bool
  isTrigName : String → Bool
  canonMrows : XNode → XNode

/-- A concrete context with everything switched off, used for closed
witnesses and counterexamples. -/
def trivialCtx : Ctx :=
  Ctx.mk (fun _ _ => FunctionNameCertainty.False) (fun _ => false) (fun _ => false)
         (fun _ => false) (fun _ => false) (fun n => n)

def formOpType (f : String) : Nat :=
  if f.toLower = "prefix" then T_PRE
  else if f.toLower = "postfix" then T_POST
  else T_IN

/-- compute_type_from_position (canonicalize.rs:2349-2381). -/
def compute_type_from_position (ctx : Ctx) (previousOperator : Option OperatorInfo)
    (previousNode nextNode : Option XNode) : Nat :=
  if (match nextNode with
      | some nn => ctx.isFunctionName (get_possible_embellished_node nn) none ==
                   FunctionNameCertainty.True
      | none => false) then T_IN
  else if (match previousNode with
      | some pn => ctx.isFunctionName (get_possible_embellished_node pn) none ==
                   FunctionNameCertainty.True
      | none => false) then T_PRE
  else
    let operandOnLeft : Bool := match previousOperator with
      | none => true
      | some p => p.isPost
    let operandOnRight : Bool := match nextNode with
      | some nn => (get_possible_embellished_node nn).name != "mo"
      | none => false
    if operandOnLeft && operandOnRight then T_IN
    else if !operandOnLeft && operandOnRight then T_PRE
    else if operandOnLeft && !operandOnRight then T_POST
    else T_IN

/-- find_operator_info (canonicalize.rs:2383-2398): walk up to three chain
entries looking for the requested type; on failure, the first entry unless
the type came from a form attribute. -/
def find_operator_info (chain : List OperatorInfo) (opType : Nat)
    (fromFormAttr : Bool) : OperatorInfo :=
  match chain with
  | [] => ILLEGAL_OPERATOR_INFO
  | op0 :: rest0 =>
    if op0.isOpType opType then op0
    else
      match rest0 with
      | op1 :: rest1 =>
        if op1.isOpType opType then op1
        else
          match rest1 with
          | op2 :: _ =>
            if op2.isOpType opType then op2
            else if fromFormAttr then ILLEGAL_OPERATOR_INFO else op0
          | [] => if fromFormAttr then ILLEGAL_OPERATOR_INFO else op0
      | [] => if fromFormAttr then ILLEGAL_OPERATOR_INFO else op0

def op_not_in_operator_dictionary (opType : Nat) : OperatorInfo :=
  if opType = T_PRE then DEFAULT_OPERATOR_INFO_PRE
  else if opType = T_POST then DEFAULT_OPERATOR_INFO_POST
  else DEFAULT_OPERATOR_INFO_IN

/-- find_operator (canonicalize.rs:2314-2407). -/
def find_operator (ctx : Ctx) (moNode : XNode) (previousOperator : Option OperatorInfo)
    (previousNode nextNode : Option XNode) : OperatorInfo :=
  let form := moNode.attr "form"
  let opType := match form with
    | none => compute_type_from_position ctx previousOperator previousNode nextNode
    | some f => formOpType f
  let foundOpInfo : Option (List OperatorInfo) :=
    if (moNode.attr CHEMICAL_BOND).isSome then some [IMPLIED_CHEMICAL_BOND]
    else OPERATORS (xtext moNode)
  match foundOpInfo with
  | none => op_not_in_operator_dictionary opType
  | some chain =>
    let matching := find_operator_info chain opType form.isSome
    if ptr_eq matching ILLEGAL_OPERATOR_INFO then op_not_in_operator_dictionary opType
    else matching

/-- C1 (amended): an mo token whose text is not in the operator dictionary and
which is not marked as a chemical bond never fails: find_operator returns the
synthetic priority-260 default whose role is the one inferred from context —
from the form attribute when present, otherwise from the position rules of
compute_type_from_position. -/
theorem c1_unknown_operator_default (ctx : Ctx) (moNode : XNode)
    (previousOperator : Option OperatorInfo) (previousNode nextNode : Option XNode)
    (hdict : OPERATORS (xtext moNode) = none)
    (hbond : moNode.attr CHEMICAL_BOND = none) :
    find_operator ctx moNode previousOperator previousNode nextNode =
      op_not_in_operator_dictionary
        (match moNode.attr "form" with
         | none => compute_type_from_position ctx previousOperator previousNode nextNode
         | some f => formOpType f) ∧
    (find_operator ctx moNode previousOperator previousNode nextNode).priority = 260 ∧
    (∀ t : Nat, t = T_PRE ∨ t = T_IN ∨ t = T_POST →
      ((op_not_in_operator_dictionary t).isOpType t) = true) := by
  refine ⟨?_, ?_, ?_⟩
  · simp only [find_operator, hbond, hdict, Option.isSome_none, Bool.false_eq_true,
               if_false]
  · simp only [find_operator, hbond, hdict, Option.isSome_none, Bool.false_eq_true,
               if_false]
    unfold op_not_in_operator_dictionary
    split
    · rfl
    · split <;> rfl
  · intro t ht
    rcases ht with rfl | rfl | rfl <;> decide

theorem c1_unknown_operator_default_witness :
    OPERATORS (xtext (XNode.elem "mo" [] [XNode.text "☃"])) = none ∧
    (XNode.elem "mo" [] [XNode.text "☃"]).attr CHEMICAL_BOND = none ∧
    find_operator trivialCtx (XNode.elem "mo" [] [XNode.text "☃"]) none none none =
      op_not_in_operator_dictionary
        (match (XNode.elem "mo" [] [XNode.text "☃"]).attr "form" with
         | none => compute_type_from_position trivialCtx none none none
         | some f => formOpType f) := by
  refine ⟨by rfl, by rfl, ?_⟩
  exact (c1_unknown_operator_default trivialCtx (XNode.elem "mo" [] [XNode.text "☃"])
          none none none (by rfl) (by rfl)).1

/-- C1 counterexample: an mo whose text is not in the operator dictionary but
which carries the data-chemical-bond attribute is classified as the implied
chemical bond with priority 905, not as a priority-260 synthetic default, so
the claim's "for all inputs ... priority exactly 260" fails. -/
theorem c1_counterexample :
    OPERATORS (xtext (XNode.elem "mo" [(CHEMICAL_BOND, "1")] [XNode.text "☃"])) = none ∧
    (find_operator trivialCtx (XNode.elem "mo" [(CHEMICAL_BOND, "1")] [XNode.text "☃"])
        none none none).priority = 905 := by
  constructor
  · rfl
  · rfl

/-!
The parse stack (canonicalize.rs:221-304).  The Rust stack is a Vec with the
top at the end; here the stack is a List with the TOP AT THE HEAD (push =
cons, pop = tail), so Rust's `parse_stack[len-2]` is `stack.tail.head` and
the sentinel bottom frame is the last list element.
-/

structure OperatorPair where
  ch : String
  op : OperatorInfo
deriving Repr, DecidableEq

/-- OperatorPair::new — the ILLEGAL marker pair used for operands. -/
def OperatorPair.illegal : OperatorPair := OperatorPair.mk "illegal" ILLEGAL_OPERATOR_INFO

structure StackInfo where
  mrow : XNode
  opPair : OperatorPair
  isOperand : Bool
deriving Repr

/-- StackInfo::new: a fresh frame with an empty added mrow and the
LEFT_FENCEPOST sentinel operator (priority 0, char U+E000). -/
def StackInfo.new : StackInfo :=
  StackInfo.mk (XNode.elem "mrow" [(CHANGED_ATTR, ADDED_ATTR_VALUE)] [])
               (OperatorPair.mk "" LEFT_FENCEPOST) false

/-- StackInfo::with_op: a fresh frame whose mrow is seeded with one node. -/
def StackInfo.withOp (node : XNode) (opPair : OperatorPair) : StackInfo :=
  StackInfo.mk (XNode.elem "mrow" [(CHANGED_ATTR, ADDED_ATTR_VALUE)] [node]) opPair false

def StackInfo.priority (si : StackInfo) : Nat := si.opPair.op.priority

def StackInfo.lastChildInMrow (si : StackInfo) : Option XNode :=
  si.mrow.children.getLast?

/-- add_child_to_mrow: append the child; an ILLEGAL op marks an operand
(the source also asserts no two operands in a row), otherwise record the
operator pair. -/
def StackInfo.addChildToMrow (si : StackInfo) (child : XNode) (childOp : OperatorPair) :
    StackInfo :=
  let mrow := si.mrow.appendChild child
  if ptr_eq childOp.op ILLEGAL_OPERATOR_INFO then
    StackInfo.mk mrow si.opPair true
  else
    StackInfo.mk mrow childOp false

/-- remove_last_operand_from_mrow; none models the source's assertion failure
on an empty mrow. -/
def StackInfo.removeLastOperand (si : StackInfo) : Option (XNode × StackInfo) :=
  match si.mrow with
  | XNode.elem n a cs =>
    match cs.getLast? with
    | none => none
    | some last => some (last, StackInfo.mk (XNode.elem n a cs.dropLast) si.opPair false)
  | XNode.text _ => none

/-- top(parse_stack); the default cannot be observed while the sentinel
bottom frame is present. -/
def topStack (stack : List StackInfo) : StackInfo := stack.headD StackInfo.new

def OperatorInfo.isPlusOrMinus (op : OperatorInfo) : Bool :=
  ptr_eq op PLUS || ptr_eq op MINUS

def OperatorInfo.isTimes (op : OperatorInfo) : Bool :=
  ptr_eq op IMPLIED_TIMES || ptr_eq op TIMES_SIGN

/-- is_nary (canonicalize.rs:214-218), called as previous.is_nary(current). -/
def OperatorInfo.isNary (self other : OperatorInfo) : Bool :=
  ptr_eq other self || (other.isPlusOrMinus && self.isPlusOrMinus) ||
  (other.isTimes && self.isTimes)

/-- create_mo (canonicalize.rs:3284-3290). -/
def create_mo (ch : String) (attrValue : String) : XNode :=
  XNode.elem "mo" [(CHANGED_ATTR, attrValue)] [XNode.text ch]

/-- is_fence (canonicalize.rs:313-316). -/
def is_fence (ctx : Ctx) (mo : XNode) : Bool :=
  (find_operator ctx mo none none none).isFenceOp

/-- potentially_lift_script (canonicalize.rs:1983-2013). -/
def potentially_lift_script (ctx : Ctx) (mrow : XNode) : XNode :=
  if mrow.name ≠ "mrow" then mrow
  else
    match mrow.children with
    | [] => mrow   -- children[0] would panic; unreachable at the call site
    | c0 :: crest =>
      let firstChild := c0
      let lastChild := ((c0 :: crest).getLast?).getD c0
      let lastChildName := lastChild.name
      if firstChild.name = "mo" ∧ is_fence ctx firstChild = true ∧
         (lastChildName = "msub" ∨ lastChildName = "msup" ∨ lastChildName = "msubsup") then
        match lastChild.children with
        | [] => mrow   -- script children[0] would panic
        | base :: srest =>
          if ¬ (base.name = "mo" ∧ is_fence ctx base = true) then mrow
          else
            XNode.elem lastChild.name lastChild.attrList
              (XNode.elem "mrow" mrow.attrList ((c0 :: crest).dropLast ++ [base]) :: srest)
      else mrow

/-- shift_stack (canonicalize.rs:2875-2937).  none models the source's two
abort paths (popping an empty stack, and the explicit panic when a close
fence finds an mrow with more than three children). -/
def shift_stack (ctx : Ctx) (parseStack : List StackInfo)
    (currentChild : XNode) (currentOp : OperatorPair) :
    Option (List StackInfo × XNode × OperatorPair) :=
  match parseStack with
  | [] => none
  | topOfStack :: rest =>
    let previousOp := topOfStack.opPair
    if ¬ (previousOp.op.isNary currentOp.op = true) then
      if topOfStack.mrow.children.isEmpty = true ∨
         (¬ topOfStack.isOperand = true ∧ ¬ currentOp.op.isRightFence = true) then
        some (StackInfo.new :: topOfStack :: rest, currentChild, currentOp)
      else if currentOp.op.isRightFence = true then
        let withClose := topOfStack.addChildToMrow currentChild currentOp
        let mrow := withClose.mrow
        let cs := mrow.children
        if cs.length = 2 ∧
           ((cs.headD (XNode.text "")).name ≠ "mo" ∨
            ¬ (find_operator ctx (cs.headD (XNode.text "")) none
                 (some (cs.headD (XNode.text ""))) (some mrow)).isLeftFence = true) then
          some (StackInfo.new :: rest, mrow, OperatorPair.illegal)
        else if cs.length ≤ 3 then
          some (rest, potentially_lift_script ctx mrow, OperatorPair.illegal)
        else none
      else if currentOp.op.isPost = true then
        match topOfStack.removeLastOperand with
        | none => none
        | some (previousChild, topOfStack2) =>
          let newTop := (StackInfo.withOp previousChild currentOp).addChildToMrow
                          currentChild currentOp
          some (topOfStack2 :: rest, newTop.mrow, OperatorPair.illegal)
      else
        match topOfStack.removeLastOperand with
        | none => none
        | some (previousChild, topOfStack2) =>
          some (StackInfo.withOp previousChild currentOp :: topOfStack2 :: rest,
                currentChild, currentOp)
    else
      some (parseStack, currentChild, currentOp)

theorem removeLastOperand_isOperand {si : StackInfo} {pc : XNode} {si2 : StackInfo}
    (h : si.removeLastOperand = some (pc, si2)) : si2.isOperand = false := by
  obtain ⟨mrow, opPair, isOp⟩ := si
  cases mrow with
  | text s => simp [StackInfo.removeLastOperand] at h
  | elem n a cs =>
    simp only [StackInfo.removeLastOperand] at h
    cases hl : cs.getLast? with
    | none => rw [hl] at h; simp at h
    | some last =>
      rw [hl] at h
      simp only [Option.some.injEq, Prod.mk.injEq] at h
      obtain ⟨_, h2⟩ := h
      rw [← h2]

/-- C5: during the shift step the stack is left unchanged — the current
frame's mrow is then extended in place by the caller, yielding the
left-associative n-ary chain — exactly when the incoming operator is
compatible with the operator of the top frame in the sense of is_nary (the
identical OperatorInfo entry, or both in the plus/minus family, or both in
the times/implied-times family); in every other case shift_stack pushes,
pops/merges, or restructures the stack (or hits a defensive abort path). -/
theorem c5_nary_iff_stack_unchanged (ctx : Ctx) (parseStack : List StackInfo)
    (currentChild : XNode) (currentOp : OperatorPair)
    (hne : parseStack ≠ []) :
    (∃ r, shift_stack ctx parseStack currentChild currentOp = some r ∧ r.1 = parseStack) ↔
    (topStack parseStack).opPair.op.isNary currentOp.op = true := by
  cases parseStack with
  | nil => exact absurd rfl hne
  | cons topOfStack rest =>
    simp only [topStack, List.headD]
    by_cases hnary : topOfStack.opPair.op.isNary currentOp.op = true
    · constructor
      · intro _; exact hnary
      · intro _
        refine ⟨(topOfStack :: rest, currentChild, currentOp), ?_, rfl⟩
        simp only [shift_stack]
        rw [if_neg (by simp [hnary])]
    · constructor
      · rintro ⟨r, hr, hstack⟩
        exfalso
        simp only [shift_stack] at hr
        rw [if_pos hnary] at hr
        split at hr
        next g1 =>
          injection hr with hx
          subst hx
          simp only at hstack
          have hlen := congrArg List.length hstack
          simp at hlen
        next g1 =>
          have hnotempty : ¬ topOfStack.mrow.children.isEmpty = true :=
            fun hh => g1 (Or.inl hh)
          split at hr
          next g2 =>
            split at hr
            next g3 =>
              injection hr with hx
              subst hx
              simp only at hstack
              rw [List.cons.injEq] at hstack
              obtain ⟨hhead, _⟩ := hstack
              have : topOfStack.mrow.children.isEmpty = true := by
                rw [← hhead]
                rfl
              exact hnotempty this
            next g3 =>
              split at hr
              next g4 =>
                injection hr with hx
                subst hx
                simp only at hstack
                have hlen := congrArg List.length hstack
                simp at hlen
              next g4 =>
                exact absurd hr (by simp)
          next g2 =>
            split at hr
            next g5 =>
              cases hrem : topOfStack.removeLastOperand with
              | none => rw [hrem] at hr; simp at hr
              | some pr =>
                obtain ⟨pc, top2⟩ := pr
                rw [hrem] at hr
                simp only at hr
                injection hr with hx
                subst hx
                simp only at hstack
                rw [List.cons.injEq] at hstack
                obtain ⟨hhead, _⟩ := hstack
                have hop2 : top2.isOperand = false := removeLastOperand_isOperand hrem
                have hoptrue : topOfStack.isOperand = true := by
                  by_contra hfalse
                  exact g1 (Or.inr ⟨hfalse, g2⟩)
                rw [hhead] at hop2
                rw [hoptrue] at hop2
                exact absurd hop2 (by simp)
            next g5 =>
              cases hrem : topOfStack.removeLastOperand with
              | none => rw [hrem] at hr; simp at hr
              | some pr =>
                obtain ⟨pc, top2⟩ := pr
                rw [hrem] at hr
                simp only at hr
                injection hr with hx
                subst hx
                simp only at hstack
                have hlen := congrArg List.length hstack
                simp at hlen
      · intro h; exact absurd h hnary

def c5_witness_stack : List StackInfo :=
  [StackInfo.mk (XNode.elem "mrow" [] [XNode.elem "mi" [] [XNode.text "a"],
                                       create_mo "+" ADDED_ATTR_VALUE])
                (OperatorPair.mk "+" PLUS) false]

theorem c5_nary_iff_stack_unchanged_witness :
    c5_witness_stack ≠ [] ∧
    ((∃ r, shift_stack trivialCtx c5_witness_stack (XNode.elem "mi" [] [XNode.text "b"])
             (OperatorPair.mk "+" PLUS) = some r ∧ r.1 = c5_witness_stack) ↔
     (topStack c5_witness_stack).opPair.op.isNary (OperatorPair.mk "+" PLUS).op = true) :=
  ⟨by simp [c5_witness_stack],
   c5_nary_iff_stack_unchanged trivialCtx c5_witness_stack
     (XNode.elem "mi" [] [XNode.text "b"]) (OperatorPair.mk "+" PLUS)
     (by simp [c5_witness_stack])⟩

/-!
reduce_stack (canonicalize.rs:2940-2970).  reduce_stack_one_time pops the top
frame, unwraps its mrow when it holds a single child, appends it as an
operand to the frame below, and reports the new top priority; the reduce loop
repeats this while the incoming priority binds more loosely, stopping (the
defensive early exit) when a single frame remains.
-/

/-- The merge of one reduce step: the popped frame top1's (possibly
unwrapped) mrow is appended as an operand to top2. -/
def reduce_one_step (top1 top2 : StackInfo) : StackInfo :=
  let mrowVal :=
    if top1.mrow.children.length = 1 then
      ((top1.removeLastOperand).map Prod.fst).getD top1.mrow
    else top1.mrow
  top2.addChildToMrow mrowVal OperatorPair.illegal

/-- reduce_stack_one_time; none models the source's pop-of-empty panic. -/
def reduce_stack_one_time (parseStack : List StackInfo) : Option (List StackInfo × Nat) :=
  match parseStack with
  | top1 :: top2 :: rest =>
    let newTop := reduce_one_step top1 top2
    some (newTop :: rest, newTop.priority)
  | _ => none

def reduce_stack : List StackInfo → Nat → List StackInfo
  | parseStack, currentPriority =>
    if currentPriority < (topStack parseStack).priority then
      if parseStack.length = 1 then parseStack
      else
        match parseStack with
        | top1 :: top2 :: rest =>
          reduce_stack (reduce_one_step top1 top2 :: rest) currentPriority
        | _ => parseStack
    else parseStack
termination_by parseStack _ => parseStack.length
decreasing_by
  simp only [List.length_cons]
  omega

theorem addChildToMrow_illegal_opPair (si : StackInfo) (child : XNode) :
    (si.addChildToMrow child OperatorPair.illegal).opPair = si.opPair := by
  simp [StackInfo.addChildToMrow, OperatorPair.illegal, ptr_eq]

theorem reduce_one_step_opPair (top1 top2 : StackInfo) :
    (reduce_one_step top1 top2).opPair = top2.opPair := by
  simp [reduce_one_step, addChildToMrow_illegal_opPair]

/-- C7: the sentinel bottom frame created at the start of the scan carries
LEFT_FENCEPOST with minimal priority 0, and the reduce loop never pops the
last remaining frame: on a nonempty stack reduce_stack returns a nonempty
stack whose bottom frame still carries the same operator pair. -/
theorem c7_reduce_preserves_sentinel :
    (StackInfo.new.opPair.op = LEFT_FENCEPOST ∧ LEFT_FENCEPOST.priority = 0) ∧
    ∀ (parseStack : List StackInfo) (currentPriority : Nat), parseStack ≠ [] →
      reduce_stack parseStack currentPriority ≠ [] ∧
      (reduce_stack parseStack currentPriority).getLast?.map StackInfo.opPair =
        parseStack.getLast?.map StackInfo.opPair := by
  refine ⟨⟨rfl, rfl⟩, ?_⟩
  suffices haux : ∀ (n : Nat) (parseStack : List StackInfo) (currentPriority : Nat),
      parseStack.length ≤ n → parseStack ≠ [] →
      reduce_stack parseStack currentPriority ≠ [] ∧
      (reduce_stack parseStack currentPriority).getLast?.map StackInfo.opPair =
        parseStack.getLast?.map StackInfo.opPair by
    intro parseStack currentPriority hne
    exact haux parseStack.length parseStack currentPriority le_rfl hne
  intro n
  induction n using Nat.strong_induction_on with
  | _ n ih =>
    intro parseStack currentPriority hlen hne
    cases parseStack with
    | nil => exact absurd rfl hne
    | cons top1 rest1 =>
      cases rest1 with
      | nil =>
        by_cases hlt : currentPriority < (topStack [top1]).priority
        · rw [reduce_stack, if_pos hlt,
              if_pos (by simp : ([top1] : List StackInfo).length = 1)]
          · exact ⟨hne, rfl⟩
          · intro t1 t2 r h
            simp at h
        · rw [reduce_stack, if_neg hlt]
          · exact ⟨hne, rfl⟩
          · intro t1 t2 r h
            simp at h
      | cons top2 rest =>
        by_cases hlt : currentPriority < (topStack (top1 :: top2 :: rest)).priority
        · have hlen2 : (reduce_one_step top1 top2 :: rest).length < n := by
            simp at hlen ⊢
            omega
          have hstep := ih (reduce_one_step top1 top2 :: rest).length hlen2
            (reduce_one_step top1 top2 :: rest) currentPriority le_rfl (by simp)
          rw [reduce_stack, if_pos hlt,
              if_neg (by simp : ¬ ((top1 :: top2 :: rest) : List StackInfo).length = 1)]
          refine ⟨hstep.1, ?_⟩
          rw [hstep.2]
          cases rest with
          | nil => simp [reduce_one_step_opPair]
          | cons r3 rrest => simp
        · rw [reduce_stack, if_neg hlt]
          exact ⟨hne, rfl⟩

theorem c7_reduce_preserves_sentinel_witness :
    ([StackInfo.new] ≠ []) ∧
    reduce_stack [StackInfo.new] 5 ≠ [] ∧
    (reduce_stack [StackInfo.new] 5).getLast?.map StackInfo.opPair =
      [StackInfo.new].getLast?.map StackInfo.opPair :=
  ⟨by simp,
   (c7_reduce_preserves_sentinel.2 [StackInfo.new] 5 (by simp)).1,
   (c7_reduce_preserves_sentinel.2 [StackInfo.new] 5 (by simp)).2⟩

/-- n_vertical_bars_on_right (canonicalize.rs:2409-2422): how many of the
remaining siblings are mo elements with the same text. -/
def n_vertical_bars_on_right (remainingChildren : List XNode) (vertBarCh : String) : Nat :=
  remainingChildren.foldl
    (fun n child => if child.name == "mo" && xtext child == vertBarCh then n + 1 else n) 0

/-- The left-match test of determine_vertical_bar_op: an unmatched prefix
reading of the same token at the top frame, or (when more than two frames are
on the stack) at the frame just below the top. -/
def bar_has_left_match (v : OperatorVersions) (parseStack : List StackInfo) : Bool :=
  match v.pre with
  | some opPre =>
    if ptr_eq (topStack parseStack).opPair.op opPre then true
    else if parseStack.length > 2 then
      ptr_eq (topStack parseStack.tail).opPair.op opPre
    else false
  | none => false

/-- determine_vertical_bar_op (canonicalize.rs:2425-2512).  The source reads
the sibling after next_child through the DOM; here that node is the explicit
nextNextChild argument. -/
def determine_vertical_bar_op (ctx : Ctx) (originalOp : OperatorInfo) (moNode : XNode)
    (nextChild : Option XNode) (nextNextChild : Option XNode)
    (parseStack : List StackInfo) (nBarsRight : Nat) : OperatorInfo :=
  let operatorStr := xtext moNode
  match OPERATORS operatorStr with
  | none => originalOp
  | some chain =>
    if ¬ (operatorStr ∈ AMBIGUOUS_OPERATORS) then originalOp
    else
      let op := chain.headD ILLEGAL_OPERATOR_INFO
      let v := OperatorVersions.ofChain chain
      if v.pre.isSome ∧
         ((topStack parseStack).lastChildInMrow.isNone ∨
          ¬ (topStack parseStack).isOperand = true) then
        v.pre.getD ILLEGAL_OPERATOR_INFO
      else
        let hasLeftMatch := bar_has_left_match v parseStack
        if v.post.isSome ∧ (nextChild.isNone ∨ hasLeftMatch = true) then
          v.post.getD ILLEGAL_OPERATOR_INFO
        else if nextChild.isNone then
          match v.inf with
          | none => op
          | some i => i
        else
          let next := nextChild.getD (XNode.text "")
          if v.pre.isSome ∧ (nBarsRight &&& 1) ≠ 0 then
            v.pre.getD ILLEGAL_OPERATOR_INFO
          else
            let nextBase := get_possible_embellished_node next
            let nextChildOp : Option OperatorInfo :=
              if nextBase.name ≠ "mo" then none
              else some (find_operator ctx nextBase v.inf
                          (topStack parseStack).lastChildInMrow nextNextChild)
            match nextChildOp with
            | some nop =>
              if ¬ nop.isLeftFence = true ∧ ¬ nop.isPre = true then
                if v.post.isSome then v.post.getD ILLEGAL_OPERATOR_INFO else op
              else
                match v.inf with
                | some i => i
                | none => op
            | none =>
              match v.inf with
              | some i => i
              | none => op

/-- C4: for an ambiguous vertical-bar token that is not in prefix position,
is not forced postfix (no matching open bar at the current or one-below
frame — last-child forcing being excluded since a next child exists), and is
not the last child of the group: when the number of later occurrences of the
same token is odd and a prefix reading exists, the resolver returns the
open-fence (prefix) reading. -/
theorem c4_odd_bars_open_fence (ctx : Ctx) (originalOp : OperatorInfo) (moNode : XNode)
    (nc : XNode) (nextNextChild : Option XNode) (parseStack : List StackInfo)
    (nBarsRight : Nat) (chain : List OperatorInfo) (p : OperatorInfo)
    (hdict : OPERATORS (xtext moNode) = some chain)
    (hamb : xtext moNode ∈ AMBIGUOUS_OPERATORS)
    (hpre : (OperatorVersions.ofChain chain).pre = some p)
    (hnotprefixpos : ¬ ((topStack parseStack).lastChildInMrow.isNone ∨
                        ¬ (topStack parseStack).isOperand = true))
    (hnotpost : ¬ ((OperatorVersions.ofChain chain).post.isSome ∧
                   bar_has_left_match (OperatorVersions.ofChain chain) parseStack = true))
    (hodd : (nBarsRight &&& 1) ≠ 0) :
    determine_vertical_bar_op ctx originalOp moNode (some nc) nextNextChild
      parseStack nBarsRight = p := by
  simp only [determine_vertical_bar_op, hdict]
  rw [if_neg (by simp [hamb])]
  rw [if_neg (by
    intro hcon
    exact hnotprefixpos hcon.2)]
  rw [if_neg (by
    intro hcon
    refine hnotpost ⟨hcon.1, ?_⟩
    rcases hcon.2 with hnone | hmatch
    · simp at hnone
    · exact hmatch)]
  rw [if_neg (by simp : ¬ (some nc : Option XNode).isNone = true)]
  rw [if_pos ⟨by simp [hpre], hodd⟩]
  simp [hpre]

def c4_witness_stack : List StackInfo :=
  [StackInfo.mk (XNode.elem "mrow" [] [XNode.elem "mi" [] [XNode.text "x"]])
                OperatorPair.illegal true]

theorem c4_odd_bars_open_fence_witness :
    OPERATORS (xtext (create_mo "|" ADDED_ATTR_VALUE)) =
      some [VERT_BAR_LEFT, VERT_BAR_RIGHT, VERT_BAR_IN] ∧
    determine_vertical_bar_op trivialCtx VERT_BAR_IN (create_mo "|" ADDED_ATTR_VALUE)
      (some (XNode.elem "mi" [] [XNode.text "y"])) none c4_witness_stack 1 =
      VERT_BAR_LEFT := by
  constructor
  · rfl
  · exact c4_odd_bars_open_fence trivialCtx VERT_BAR_IN (create_mo "|" ADDED_ATTR_VALUE)
      (XNode.elem "mi" [] [XNode.text "y"]) none c4_witness_stack 1
      [VERT_BAR_LEFT, VERT_BAR_RIGHT, VERT_BAR_IN] VERT_BAR_LEFT
      rfl (by decide) rfl (by decide) (by decide) (by decide)

/-!
Implicit-operator inference (canonicalize.rs:2727-3042, 3104-3124): the
predicates deciding which invisible operator joins two adjacent operands,
and the decision chain itself.
-/

/-- is_int inside is_mixed_fraction: an mn with no decimal separator (the
separator is the single character "."). -/
def is_int (n : XNode) : Bool :=
  n.name == "mn" && !((xtext n).contains '.')

/-- is_integer_part_ok: the integer part is n or -n-in-an-mrow. -/
def is_integer_part_ok (integerPart : XNode) : Bool :=
  if integerPart.name == "mrow" then
    match integerPart.children with
    | [c0, c1] => if c0.name == "mo" && xtext c0 == "-" then is_int c1 else false
    | _ => false
  else is_int integerPart

/-- is_mfrac_ok: integer numerator and denominator. -/
def is_mfrac_ok (fractionPart : XNode) : Bool :=
  match fractionPart.children with
  | [numerator, denominator] =>
    if numerator.name ≠ "mn" ∨ (xtext numerator).contains '.' then false
    else is_int denominator
  | _ => false

/-- is_linear_fraction: 3/4 either inside an mrow or as three separate
elements; the middle element is canonicalized before the slash test. -/
def is_linear_fraction (ctx : Ctx) (fractionChildren : List XNode) : Bool :=
  match fractionChildren with
  | [] => false
  | firstChild :: restChildren =>
    if h : firstChild.name == "mrow" then
      if firstChild.children.length ≠ 3 then false
      else is_linear_fraction ctx firstChild.children
    else
      match restChildren with
      | second :: third :: _ =>
        if ¬ is_int firstChild = true then false
        else
          let slashPart := ctx.canonMrows second
          if slashPart.name == "mo" && xtext slashPart == "/" then
            is_int (ctx.canonMrows third)
          else false
      | _ => false
termination_by sizeOf fractionChildren
decreasing_by
  cases c with
  | text s => simp [XNode.name] at h
  | elem n a cs =>
    simp only [XNode.children, List.cons.sizeOf_spec, XNode.elem.sizeOf_spec]
    omega

/-- is_mixed_fraction (canonicalize.rs:2727-2812). -/
def is_mixed_fraction (ctx : Ctx) (integerPart : XNode)
    (fractionChildren : List XNode) : Bool :=
  match fractionChildren with
  | [] => false
  | rightChild :: _ =>
    let rightChildName := rightChild.name
    if ¬ (rightChildName = "mfrac" ∨
          (rightChildName = "mrow" ∧ rightChild.children.length = 3) ∨
          (rightChildName = "mn" ∧ fractionChildren.length ≥ 3)) then false
    else if ¬ is_integer_part_ok integerPart = true then false
    else if rightChildName = "mfrac" then is_mfrac_ok rightChild
    else is_linear_fraction ctx fractionChildren

/-- The information the implicit-operator predicates read through the DOM's
parent and sibling pointers, passed explicitly here: the name of the mrow's
container, whether the mrow has preceding siblings (the non-base
script-position test), and the siblings around the operand pair (for the
chemical-bond run scan). -/
structure ImpliedOpCtx where
  containerName : String
  mrowHasPrecedingSiblings : Bool
  prevPrecedingSiblings : List XNode
  currentFollowingSiblings : List XNode

/-- is_implied_comma (canonicalize.rs:2815-2826). -/
def is_implied_comma (prev current : XNode) (amb : ImpliedOpCtx) : Bool :=
  if prev.name ≠ "mn" ∨ current.name ≠ "mn" then false
  else
    (amb.containerName == "msub" || amb.containerName == "msubsup" ||
     amb.containerName == "msup") && amb.mrowHasPrecedingSiblings

def is_valid_chemistry (child : XNode) : Bool :=
  let base := get_possible_embellished_node child
  (base.attr MAYBE_CHEMISTRY).isSome ||
  (!(base.name == "mi") && !(base.name == "mtext"))

/-- is_implied_chemical_bond (canonicalize.rs:2829-2853). -/
def is_implied_chemical_bond (prev current : XNode) (amb : ImpliedOpCtx) : Bool :=
  if (prev.attr MAYBE_CHEMISTRY).isNone ∨ (current.attr MAYBE_CHEMISTRY).isNone then false
  else
    amb.prevPrecedingSiblings.all is_valid_chemistry &&
    amb.currentFollowingSiblings.all is_valid_chemistry

/-- is_cap: the single character is an ASCII uppercase letter. -/
def is_cap (str : String) : Bool :=
  match str.data with
  | c :: _ => c.isUpper
  | [] => false

/-- is_implied_separator (canonicalize.rs:2856-2871): both operands are
single-byte uppercase mi identifiers. -/
def is_implied_separator (prev current : XNode) : Bool :=
  if prev.name ≠ "mi" ∨ current.name ≠ "mi" then false
  else
    let prevText := xtext prev
    let currentText := xtext current
    prevText.utf8ByteSize == 1 && currentText.utf8ByteSize == 1 &&
    is_cap prevText && is_cap currentText

/-- Executable model of Rust str::trim (drop leading and trailing
whitespace), written over the character list so that concrete inputs
evaluate inside the kernel. -/
def trim_str (s : String) : String :=
  String.mk (((s.data.dropWhile Char.isWhitespace).reverse.dropWhile
                Char.isWhitespace).reverse)

/-- Executable model of Rust str::to_ascii_lowercase. -/
def ascii_lowercase (s : String) : String :=
  String.mk (s.data.map Char.toLower)

/-- is_trig inside is_trig_arg: the (embellished) node is an mi/mtext whose
trimmed, ascii-lowercased text is a configured trig function name. -/
def is_trig (ctx : Ctx) (node : XNode) : Bool :=
  let base := get_possible_embellished_node node
  if ¬ (base.name = "mi" ∨ base.name = "mtext") then false
  else
    let baseName := trim_str (xtext base)
    if baseName.data.isEmpty then false
    else ctx.isTrigName (ascii_lowercase baseName)

/-- is_trig_arg (canonicalize.rs:2972-3042).  Returns the decision and the
stack, which the prefix-minus case reduces one step before answering true. -/
def is_trig_arg (ctx : Ctx) (previousChild currentChild : XNode)
    (parseStack : List StackInfo) : Bool × List StackInfo :=
  if ¬ ctx.isSimple currentChild = true then (false, parseStack)
  else if ctx.isBracketedParen previousChild = true ∨
          ctx.isBracketedBracket previousChild = true then (false, parseStack)
  else if ctx.isFunctionName currentChild none = FunctionNameCertainty.True then
    (false, parseStack)
  else
    match parseStack with
    | [] => (false, parseStack)
    | topF :: restF =>
      if ptr_eq topF.opPair.op INVISIBLE_FUNCTION_APPLICATION then
        (is_trig ctx (topF.mrow.children.headD (XNode.text "")), topF :: restF)
      else if ptr_eq topF.opPair.op MINUS_PRE_VERSION then
        if (topF :: restF).length < 2 then (false, topF :: restF)
        else
          let nextStackInfo := topStack restF
          if ¬ ptr_eq nextStackInfo.opPair.op INVISIBLE_FUNCTION_APPLICATION then
            (false, topF :: restF)
          else if is_trig ctx (nextStackInfo.mrow.children.headD (XNode.text "")) then
            (true, ((reduce_stack_one_time (topF :: restF)).map Prod.fst).getD (topF :: restF))
          else (false, topF :: restF)
      else (ptr_eq topF.opPair.op IMPLIED_TIMES_HIGH_PRIORITY, topF :: restF)

/-- The implicit-operator decision chain (canonicalize.rs:3104-3124): which
invisible operator joins the adjacent operands previousChild/currentChild.
The returned stack accounts for the one-step reduction performed by
is_trig_arg's prefix-minus case. -/
def choose_implied_operator (ctx : Ctx) (previousChild currentChild : XNode)
    (rightSiblings : List XNode) (amb : ImpliedOpCtx)
    (parseStack : List StackInfo) : OperatorPair × List StackInfo :=
  if ctx.isFunctionName previousChild (some rightSiblings) = FunctionNameCertainty.True then
    (OperatorPair.mk "\u2061" INVISIBLE_FUNCTION_APPLICATION, parseStack)
  else if is_mixed_fraction ctx previousChild rightSiblings = true then
    (OperatorPair.mk "\u2064" IMPLIED_INVISIBLE_PLUS, parseStack)
  else if is_implied_comma previousChild currentChild amb = true then
    (OperatorPair.mk "\u2063" IMPLIED_INVISIBLE_COMMA, parseStack)
  else if is_implied_chemical_bond previousChild currentChild amb = true then
    (OperatorPair.mk "\u2063" IMPLIED_CHEMICAL_BOND, parseStack)
  else if is_implied_separator previousChild currentChild = true then
    (OperatorPair.mk "\u2063" IMPLIED_SEPARATOR_HIGH_PRIORITY, parseStack)
  else
    let trig := is_trig_arg ctx (get_possible_embellished_node previousChild)
                  (get_possible_embellished_node currentChild) parseStack
    if trig.1 = true then (OperatorPair.mk "\u2062" IMPLIED_TIMES_HIGH_PRIORITY, trig.2)
    else (OperatorPair.mk "\u2062" IMPLIED_TIMES, trig.2)

def first_matching_rule : List (Bool × OperatorPair) → OperatorPair → OperatorPair
  | [], dflt => dflt
  | (b, op) :: rest, dflt => if b then op else first_matching_rule rest dflt

/-- Claim C3's ordered rule table, each rule guarded exactly as the code
computes it (rule 6 = is_trig_arg, which also requires the previous operand
to be unparenthesized). -/
def implied_operator_rule_table (ctx : Ctx) (previousChild currentChild : XNode)
    (rightSiblings : List XNode) (amb : ImpliedOpCtx)
    (parseStack : List StackInfo) : List (Bool × OperatorPair) :=
  [ (ctx.isFunctionName previousChild (some rightSiblings) == FunctionNameCertainty.True,
      OperatorPair.mk "\u2061" INVISIBLE_FUNCTION_APPLICATION),
    (is_mixed_fraction ctx previousChild rightSiblings,
      OperatorPair.mk "\u2064" IMPLIED_INVISIBLE_PLUS),
    (is_implied_comma previousChild currentChild amb,
      OperatorPair.mk "\u2063" IMPLIED_INVISIBLE_COMMA),
    (is_implied_chemical_bond previousChild currentChild amb,
      OperatorPair.mk "\u2063" IMPLIED_CHEMICAL_BOND),
    (is_implied_separator previousChild currentChild,
      OperatorPair.mk "\u2063" IMPLIED_SEPARATOR_HIGH_PRIORITY),
    ((is_trig_arg ctx (get_possible_embellished_node previousChild)
        (get_possible_embellished_node currentChild) parseStack).1,
      OperatorPair.mk "\u2062" IMPLIED_TIMES_HIGH_PRIORITY) ]

/-- C3 (amended): the inserted invisible operator is decided by the first
matching rule in exactly the stated order — function application,
mixed-fraction plus, implied comma, chemical bond, elevated separator,
trig-argument elevated times — with ordinary implied times as the default;
the trig-argument rule is the code's is_trig_arg test, which additionally
requires the previous operand to be unparenthesized. -/
theorem c3_first_matching_rule_order (ctx : Ctx) (previousChild currentChild : XNode)
    (rightSiblings : List XNode) (amb : ImpliedOpCtx) (parseStack : List StackInfo) :
    (choose_implied_operator ctx previousChild currentChild rightSiblings amb parseStack).1 =
    first_matching_rule
      (implied_operator_rule_table ctx previousChild currentChild rightSiblings amb parseStack)
      (OperatorPair.mk "\u2062" IMPLIED_TIMES) := by
  unfold choose_implied_operator implied_operator_rule_table
  by_cases h1 : ctx.isFunctionName previousChild (some rightSiblings) = FunctionNameCertainty.True
  · simp [first_matching_rule, h1]
  · rw [if_neg h1]
    by_cases h2 : is_mixed_fraction ctx previousChild rightSiblings = true
    · simp [first_matching_rule, h1, h2]
    · rw [if_neg h2]
      by_cases h3 : is_implied_comma previousChild currentChild amb = true
      · simp [first_matching_rule, h1, h2, h3]
      · rw [if_neg h3]
        by_cases h4 : is_implied_chemical_bond previousChild currentChild amb = true
        · simp [first_matching_rule, h1, h2, h3, h4]
        · rw [if_neg h4]
          by_cases h5 : is_implied_separator previousChild currentChild = true
          · simp [first_matching_rule, h1, h2, h3, h4, h5]
          · rw [if_neg h5]
            by_cases h6 : (is_trig_arg ctx (get_possible_embellished_node previousChild)
                (get_possible_embellished_node currentChild) parseStack).1 = true
            · simp [first_matching_rule, h1, h2, h3, h4, h5, h6]
            · simp [first_matching_rule, h1, h2, h3, h4, h5, h6]

/-- The trig-argument stack context of is_trig_arg (function application on a
trig name atop the stack, or a lone prefix minus directly inside one, or an
already-elevated implied-times frame). -/
def trig_stack_context (ctx : Ctx) (parseStack : List StackInfo) : Bool :=
  match parseStack with
  | [] => false
  | topF :: restF =>
    if ptr_eq topF.opPair.op INVISIBLE_FUNCTION_APPLICATION then
      is_trig ctx (topF.mrow.children.headD (XNode.text ""))
    else if ptr_eq topF.opPair.op MINUS_PRE_VERSION then
      decide ((topF :: restF).length ≥ 2) &&
      ptr_eq (topStack restF).opPair.op INVISIBLE_FUNCTION_APPLICATION &&
      is_trig ctx ((topStack restF).mrow.children.headD (XNode.text ""))
    else ptr_eq topF.opPair.op IMPLIED_TIMES_HIGH_PRIORITY

/-- Rule 6 exactly as claim C3 words it — a trig-argument context with a
simple, unparenthesized current operand that is not a function name — with
no condition on the previous operand. -/
def claim_trig_rule (ctx : Ctx) (currentChild : XNode)
    (parseStack : List StackInfo) : Bool :=
  ctx.isSimple currentChild &&
  !(ctx.isBracketedParen currentChild || ctx.isBracketedBracket currentChild) &&
  !(ctx.isFunctionName currentChild none == FunctionNameCertainty.True) &&
  trig_stack_context ctx parseStack

/-- Claim C3's rule table as stated, i.e. with rule 6 as the claim words it. -/
def claim_implied_operator_rule_table (ctx : Ctx) (previousChild currentChild : XNode)
    (rightSiblings : List XNode) (amb : ImpliedOpCtx)
    (parseStack : List StackInfo) : List (Bool × OperatorPair) :=
  [ (ctx.isFunctionName previousChild (some rightSiblings) == FunctionNameCertainty.True,
      OperatorPair.mk "\u2061" INVISIBLE_FUNCTION_APPLICATION),
    (is_mixed_fraction ctx previousChild rightSiblings,
      OperatorPair.mk "\u2064" IMPLIED_INVISIBLE_PLUS),
    (is_implied_comma previousChild currentChild amb,
      OperatorPair.mk "\u2063" IMPLIED_INVISIBLE_COMMA),
    (is_implied_chemical_bond previousChild currentChild amb,
      OperatorPair.mk "\u2063" IMPLIED_CHEMICAL_BOND),
    (is_implied_separator previousChild currentChild,
      OperatorPair.mk "\u2063" IMPLIED_SEPARATOR_HIGH_PRIORITY),
    (claim_trig_rule ctx currentChild parseStack,
      OperatorPair.mk "\u2062" IMPLIED_TIMES_HIGH_PRIORITY) ]

def c3_cex_ctx : Ctx :=
  Ctx.mk (fun _ _ => FunctionNameCertainty.False) (fun _ => true)
         (fun n => n.name == "mrow") (fun _ => false) (fun s => s == "sin")
         (fun n => n)

/-- The parenthesized previous operand (2), as after parsing sin(2) x. -/
def c3_cex_prev : XNode :=
  XNode.elem "mrow" []
    [create_mo "(" ADDED_ATTR_VALUE, XNode.elem "mn" [] [XNode.text "2"],
     create_mo ")" ADDED_ATTR_VALUE]

def c3_cex_current : XNode := XNode.elem "mi" [] [XNode.text "x"]

def c3_cex_amb : ImpliedOpCtx := ImpliedOpCtx.mk "math" false [] []

def c3_cex_stack : List StackInfo :=
  [StackInfo.mk
     (XNode.elem "mrow" []
       [XNode.elem "mi" [] [XNode.text "sin"], create_mo "\u2061" ADDED_ATTR_VALUE,
        c3_cex_prev])
     (OperatorPair.mk "\u2061" INVISIBLE_FUNCTION_APPLICATION) true,
   StackInfo.new]

/-- C3 counterexample: with the previous operand parenthesized (sin(2) x),
the code's inference inserts ordinary implied times, while the claim's rule
list — whose rule 6 places no condition on the previous operand — selects
elevated-priority implied times; the claim's "exactly this order" dispatch
therefore disagrees with the code. -/
theorem c3_counterexample :
    (choose_implied_operator c3_cex_ctx c3_cex_prev c3_cex_current [c3_cex_current]
       c3_cex_amb c3_cex_stack).1 = OperatorPair.mk "\u2062" IMPLIED_TIMES ∧
    first_matching_rule
      (claim_implied_operator_rule_table c3_cex_ctx c3_cex_prev c3_cex_current
        [c3_cex_current] c3_cex_amb c3_cex_stack)
      (OperatorPair.mk "\u2062" IMPLIED_TIMES) =
      OperatorPair.mk "\u2062" IMPLIED_TIMES_HIGH_PRIORITY ∧
    OperatorPair.mk "\u2062" IMPLIED_TIMES ≠ OperatorPair.mk "\u2062" IMPLIED_TIMES_HIGH_PRIORITY := by
  refine ⟨by decide, by decide, by decide⟩
